import Mathlib

/-!
Shallow embedding of the SAM-catalog migration engine of the `sbnutil`
repository (scripts `migrate_sam_files.py`, `migrate_sam_definitions.py`,
`migrate_sam_locations.py`, `migrate_sam_users.py`), together with theorems
settling the behavioural claims about it.

Python strings are modelled as `List Char`, python dictionaries as ordered
association lists (python 3 dicts preserve insertion order), and the two
remote SAM databases as explicit state threaded through every function.
Remote calls are recorded in an event trace so that statements such as
"performs no further remote reads or writes" can be expressed.  A python
exception is modelled by an `exc` result carrying the state at the point the
exception is raised (side effects performed before the raise are kept, as in
python); nontermination of `extract_definitions` is modelled by a dedicated
`hang` result.
-/

namespace Sbnutil

/-- Convert a Lean string literal to the `List Char` model of python strings. -/
def s2l (s : String) : List Char := s.data

/-- Python `haystack.find(needle)` helper: index of the first occurrence,
counting from `i`. -/
def pyFindAux : List Char → List Char → Nat → Option Nat
  | h, nd, i =>
    if nd.isPrefixOf h then some i
    else
      match h with
      | [] => none
      | _ :: t => pyFindAux t nd (i + 1)

/-- Python `haystack.find(needle)`: index of the first occurrence, `-1` if
absent. -/
def pyFind (h nd : List Char) : Int :=
  match pyFindAux h nd 0 with
  | some i => (i : Int)
  | none => -1

/-- Whether `nd` occurs as a contiguous substring of `h` (python `in` /
`find >= 0`). -/
def containsSub (h nd : List Char) : Bool :=
  decide (0 ≤ pyFind h nd)

/-- First whitespace-delimited token of a python string: `s.split()[0]`.
`none` models the `IndexError` raised when `s.split()` is empty. -/
def firstToken (s : List Char) : Option (List Char) :=
  let rest := s.dropWhile Char.isWhitespace
  match rest with
  | [] => none
  | _ => some (rest.takeWhile (fun c => ¬ c.isWhitespace))

/-- Python values occurring in SAM metadata dictionaries. -/
inductive Value where
  | vint : Int → Value
  | vbool : Bool → Value
  | vstr : List Char → Value
  | vlist : List Value → Value
  | vdict : List (String × Value) → Value
deriving Repr

-- Structural equality test on `Value` (python `==`; boolean/integer
-- cross-type equality is handled separately by `pyEqInt` where the engine
-- compares against integer literals).
mutual
def Value.beq : Value → Value → Bool
  | .vint a, .vint b => a == b
  | .vbool a, .vbool b => a == b
  | .vstr a, .vstr b => a == b
  | .vlist a, .vlist b => Value.beqL a b
  | .vdict a, .vdict b => Value.beqD a b
  | _, _ => false
def Value.beqL : List Value → List Value → Bool
  | [], [] => true
  | a :: as, b :: bs => Value.beq a b && Value.beqL as bs
  | _, _ => false
def Value.beqD : List (String × Value) → List (String × Value) → Bool
  | [], [] => true
  | (k, a) :: as, (l, b) :: bs => k == l && Value.beq a b && Value.beqD as bs
  | _, _ => false
end

mutual
theorem Value.beq_iff : ∀ a b : Value, Value.beq a b = true ↔ a = b
  | .vint a, .vint b => by simp [Value.beq]
  | .vbool a, .vbool b => by simp [Value.beq]
  | .vstr a, .vstr b => by simp [Value.beq]
  | .vlist a, .vlist b => by simp [Value.beq, Value.beqL_iff a b]
  | .vdict a, .vdict b => by simp [Value.beq, Value.beqD_iff a b]
  | .vint _, .vbool _ => by simp [Value.beq]
  | .vint _, .vstr _ => by simp [Value.beq]
  | .vint _, .vlist _ => by simp [Value.beq]
  | .vint _, .vdict _ => by simp [Value.beq]
  | .vbool _, .vint _ => by simp [Value.beq]
  | .vbool _, .vstr _ => by simp [Value.beq]
  | .vbool _, .vlist _ => by simp [Value.beq]
  | .vbool _, .vdict _ => by simp [Value.beq]
  | .vstr _, .vint _ => by simp [Value.beq]
  | .vstr _, .vbool _ => by simp [Value.beq]
  | .vstr _, .vlist _ => by simp [Value.beq]
  | .vstr _, .vdict _ => by simp [Value.beq]
  | .vlist _, .vint _ => by simp [Value.beq]
  | .vlist _, .vbool _ => by simp [Value.beq]
  | .vlist _, .vstr _ => by simp [Value.beq]
  | .vlist _, .vdict _ => by simp [Value.beq]
  | .vdict _, .vint _ => by simp [Value.beq]
  | .vdict _, .vbool _ => by simp [Value.beq]
  | .vdict _, .vstr _ => by simp [Value.beq]
  | .vdict _, .vlist _ => by simp [Value.beq]
theorem Value.beqL_iff : ∀ a b : List Value, Value.beqL a b = true ↔ a = b
  | [], [] => by simp [Value.beqL]
  | [], _ :: _ => by simp [Value.beqL]
  | _ :: _, [] => by simp [Value.beqL]
  | a :: as, b :: bs => by
      simp [Value.beqL, Value.beq_iff a b, Value.beqL_iff as bs]
theorem Value.beqD_iff :
    ∀ a b : List (String × Value), Value.beqD a b = true ↔ a = b
  | [], [] => by simp [Value.beqD]
  | [], _ :: _ => by simp [Value.beqD]
  | _ :: _, [] => by simp [Value.beqD]
  | (k, a) :: as, (l, b) :: bs => by
      simp [Value.beqD, Value.beq_iff a b, Value.beqD_iff as bs, and_assoc]
end

instance : DecidableEq Value := fun a b =>
  decidable_of_iff (Value.beq a b = true) (Value.beq_iff a b)

/-- A python dictionary: ordered association list (insertion order kept). -/
abbrev Md := List (String × Value)

/-- Dictionary lookup (`md[k]` / `md.get(k)`), first matching key. -/
def mdGet : Md → String → Option Value
  | [], _ => none
  | (k', v) :: t, k => if k' = k then some v else mdGet t k

/-- Python `k in md`. -/
def mdHas (md : Md) (k : String) : Bool :=
  (mdGet md k).isSome

/-- Python `md[k] = v`: update in place if the key exists (keeping its
position), append otherwise. -/
def mdSet : Md → String → Value → Md
  | [], k, v => [(k, v)]
  | (k', v') :: t, k, v =>
    if k' = k then (k, v) :: t else (k', v') :: mdSet t k v

/-- Python `del md[k]` (first occurrence; python dicts have unique keys). -/
def mdDel : Md → String → Md
  | [], _ => []
  | (k', v') :: t, k => if k' = k then t else (k', v') :: mdDel t k

/-- Python truthiness of a value (`if parent['retired']:`). -/
def pyTruthy : Value → Bool
  | .vint i => i != 0
  | .vbool b => b
  | .vstr s => !s.isEmpty
  | .vlist l => !l.isEmpty
  | .vdict d => !d.isEmpty

/-- Python `x == n` for an integer literal `n` (ints and bools compare equal
to numbers; any other value compares unequal). -/
def pyEqInt : Option Value → Int → Bool
  | some (.vint i), n => i = n
  | some (.vbool b), n => (if b then (1 : Int) else 0) = n
  | _, _ => false

/-- A SAM location record as returned by `locateFile` (the engine reads the
`full_path` and `location` entries). -/
structure Loc where
  full_path : List Char
  location : List Char
deriving DecidableEq, Repr

/-- One SAM database (source `samweb1` or target `samweb2`): per-file
metadata and per-file location lists.  A file absent from `locs` makes
`locateFile` raise (covering both "not declared" and transient remote
failures, which the scripts cannot distinguish). -/
structure Db where
  meta : List (List Char × Md)
  locs : List (List Char × List Loc)
deriving DecidableEq, Repr

/-- Association-list lookup keyed by file name. -/
def alGet {β : Type} : List (List Char × β) → List Char → Option β
  | [], _ => none
  | (k, v) :: t, f => if k = f then some v else alGet t f

/-- Merge a partial metadata update into stored metadata (server-side
semantics of `modifyFileMetadata` / `modifyMetadata`). -/
def mdMerge (base upd : Md) : Md :=
  upd.foldl (fun m kv => mdSet m kv.1 kv.2) base

/-- Remote call `samweb.modifyFileMetadata(f, md)`: merge `upd` into the stored metadata
of `f` (no-op when `f` is absent; the engine only modifies files it has just
read). -/
def dbSetMeta (db : Db) (f : List Char) (upd : Md) : Db :=
  { db with meta := db.meta.map fun kv =>
      if kv.1 = f then (kv.1, mdMerge kv.2 upd) else kv }

/-- Remote call `samweb.declareFile(md)`: store the metadata under its `file_name` and
make the file locatable (with no locations yet).  The engine always supplies
a `file_name`; a nameless declare would be rejected remotely. -/
def dbDeclare (db : Db) (md : Md) : Db :=
  match mdGet md "file_name" with
  | some (.vstr f) =>
    { meta :=
        if (alGet db.meta f).isSome then
          db.meta.map fun kv => if kv.1 = f then (kv.1, md) else kv
        else db.meta ++ [(f, md)]
      locs :=
        if (alGet db.locs f).isSome then db.locs
        else db.locs ++ [(f, [])] }
  | _ => db

/-- Remote call `samweb.addFileLocation(f, location)`: append a location record.  The
`full_path` of the new record is derived remotely from the location string;
nothing in the engine reads it back, so it is stored as the location string
itself. -/
def dbAddLoc (db : Db) (f : List Char) (location : List Char) : Db :=
  { db with locs := db.locs.map fun kv =>
      if kv.1 = f then (kv.1, kv.2 ++ [⟨location, location⟩]) else kv }

/-- Remote calls (and the one local log write) performed by the engine, in
order.  `srcGetMeta/tgtGetMeta/srcLocate/tgtLocate` are reads; the rest of
the remote calls are writes; `logInvalid` is the local `--invalid` file
append. -/
inductive Ev where
  | srcGetMeta : List Char → Ev
  | tgtGetMeta : List Char → Ev
  | srcLocate : List Char → Ev
  | tgtLocate : List Char → Ev
  | srcSetMeta : List Char → Md → Ev
  | srcBulkSetMeta : List Md → Ev
  | tgtSetMeta : List Char → Md → Ev
  | tgtDeclare : Md → Ev
  | tgtAddLoc : List Char → List Char → Ev
  | logInvalid : List Char → Ev
deriving DecidableEq, Repr

/-- Whether an event is a remote write. -/
def Ev.isWrite : Ev → Bool
  | .srcSetMeta _ _ => true
  | .srcBulkSetMeta _ => true
  | .tgtSetMeta _ _ => true
  | .tgtDeclare _ => true
  | .tgtAddLoc _ _ => true
  | _ => false

/-- Whether an event is a remote read. -/
def Ev.isRead : Ev → Bool
  | .srcGetMeta _ => true
  | .tgtGetMeta _ => true
  | .srcLocate _ => true
  | .tgtLocate _ => true
  | _ => false

/-- Process state of a `migrate_sam_files.py` run: the two databases, the
module-level metadata queue `queued_metadata1`, the statistics counters and
the event trace. -/
structure St where
  db1 : Db
  db2 : Db
  queue : List Md
  ndeclared : Nat
  nmodified : Nat
  nlocations : Nat
  nmigrated : Nat
  trace : List Ev
deriving DecidableEq, Repr

/-- Append an event to the trace. -/
def St.ev (s : St) (e : Ev) : St := { s with trace := s.trace ++ [e] }

/-- Result of running a piece of the engine: normal return (with the state),
a propagating python exception (side effects before the raise are kept), or
exhaustion of the recursion budget of the embedding. -/
inductive Res (α : Type) where
  | ok : α → St → Res α
  | exc : St → Res α
  | nofuel : Res α
deriving DecidableEq, Repr

/-- The returned value of a normal result. -/
def Res.retV {α : Type} : Res α → Option α
  | .ok a _ => some a
  | _ => none

/-- The state carried by a normal or exceptional result. -/
def Res.stV {α : Type} : Res α → Option St
  | .ok _ s => some s
  | .exc s => some s
  | .nofuel => none

/-- Function `flushMetadata(samweb)` of `migrate_sam_files.py`: on a non-empty queue, print-and-bulk-update in
one remote call (`samweb.modifyMetadata(queued_metadata1)`), then clear; on
an empty queue, no remote call. -/
def flushMetadata (s : St) : St :=
  if s.queue.isEmpty then { s with queue := [] }
  else
    { s with
      db1 := s.queue.foldl
        (fun db md =>
          match mdGet md "file_name" with
          | some (.vstr f) => dbSetMeta db f md
          | _ => db) s.db1
      queue := []
      trace := s.trace ++ [Ev.srcBulkSetMeta s.queue] }

/-- Function `modifyFileMetadata(samweb, f, md)` (the script's queueing function):
record the file name in the update, append it to the queue, and flush when
the queue length exceeds 21. -/
def modifyFileMetadata (s : St) (f : List Char) (md : Md) : St :=
  let md := mdSet md "file_name" (.vstr f)
  let s := { s with queue := s.queue ++ [md] }
  if s.queue.length > 21 then flushMetadata s else s

/-- The `while len(value) < 32: value = '0' + value` padding loop of
`check_metadata`, with an iteration budget: each iteration prepends one
character, so the loop runs at most 32 times and the budget-exhausted
clause is unreachable from `padLoop`. -/
def padGo : Nat → List Char → List Char × Bool
  | 0, value => (value, false)
  | n + 1, value =>
    if value.length < 32 then ((padGo n ('0' :: value)).1, true)
    else (value, false)

/-- The padding loop of `check_metadata`, returning the padded value and
whether any padding happened (`checksum_updated`). -/
def padLoop (value : List Char) : List Char × Bool := padGo 32 value

/-- One iteration of the checksum fix-up loop: an `md5:`-prefixed entry has
its value zero-left-padded to 32 characters; other entries pass through. -/
def fixOne (c : List Char) : List Char × Bool :=
  if (s2l "md5:").isPrefixOf c then
    let p := padLoop (c.drop 4)
    (s2l "md5:" ++ p.1, p.2)
  else (c, false)

/-- The checksum fix-up loop over `md1['checksum']` (a list of strings
`new_checksum`), with the accumulated `checksum_updated` flag.  `none`
models the `AttributeError` raised on a non-string entry. -/
def fixList : List Value → Option (List Value × Bool)
  | [] => some ([], false)
  | .vstr c :: rest =>
    match fixList rest with
    | some (l, u) => some (.vstr (fixOne c).1 :: l, (fixOne c).2 || u)
    | none => none
  | _ :: _ => none

/-- The full "Fix up md5 checksum" step of `check_metadata`: when a
`checksum` key is present and holds a list, run the loop and store the new
list only if `checksum_updated`.  A string (or dict) value iterates to
one-character strings (or keys), none of which starts with `md5:`, so
nothing changes; an int value raises. -/
def checksumStep (md1 : Md) : Option Md :=
  match mdGet md1 "checksum" with
  | none => some md1
  | some (.vlist cs) =>
    match fixList cs with
    | some (l, u) => some (if u then mdSet md1 "checksum" (.vlist l) else md1)
    | none => none
  | some (.vstr _) => some md1
  | some (.vdict _) => some md1
  | some (.vint _) => none
  | some (.vbool _) => none

/-- The "Remove keys that we never want to migrate" step of
`check_metadata`. -/
def stripKeys (md : Md) : Md :=
  [("file_id" : String), "process_id", "create_date", "update_date",
    "update_user", "sbn.migrate"].foldl mdDel md

/-- One iteration of the "Calculate metadata update for target database"
loop of `check_metadata` (lines 244–251): include the field when the target
lacks it, or when the target holds a different value and the field is
neither `parents` nor `user`. -/
def mdUpdStep (md2 upd : Md) (kv : String × Value) : Md :=
  match mdGet md2 kv.1 with
  | some v2 =>
    if v2 ≠ kv.2 ∧ kv.1 ≠ "parents" ∧ kv.1 ≠ "user" then
      mdSet upd kv.1 kv.2
    else upd
  | none => mdSet upd kv.1 kv.2

/-- The "Calculate metadata update for target database" loop of
`check_metadata`, iterated over the source fields in order.  (Python dicts
have unique keys, so the iterated value is `md1[k]`.) -/
def mdUpdate (md1 md2 : Md) : Md :=
  md1.foldl (mdUpdStep md2) []

/-- Loop body of `check_locations(samweb1, samweb2, f, invalid_file)` of
`migrate_sam_files.py`, lines 274–332: the per-location loop.  Scratch
locations (marker `/scratch/` at a strictly positive index, per
`fp1.find('/scratch/') > 0`) are skipped; otherwise a location is added
exactly when no target location has the same `full_path`. -/
def locLoop (f : List Char) : List Loc → List Loc → St → St
  | [], _, s => s
  | l1 :: rest, locs2, s =>
    let s :=
      if pyFind l1.full_path (s2l "/scratch/") > 0 then s
      else if locs2.any (fun l2 => l2.full_path == l1.full_path) then s
      else
        { s with
          db2 := dbAddLoc s.db2 f l1.location
          nlocations := s.nlocations + 1
          trace := s.trace ++ [Ev.tgtAddLoc f l1.location] }
    locLoop f rest locs2 s

/-- Function `check_locations` of `migrate_sam_files.py`: list source locations
(uncaught raise), list target locations (a raise means the file may not be
declared: log it to the `--invalid` file and return `False`), then run the
location loop and return `True`. -/
def check_locations (f invalid_file : List Char) (s : St) : Res Bool :=
  let s := s.ev (.srcLocate f)
  match alGet s.db1.locs f with
  | none => .exc s
  | some locs1 =>
    let s := s.ev (.tgtLocate f)
    match alGet s.db2.locs f with
    | none =>
      let s := if invalid_file ≠ [] then s.ev (.logInvalid f) else s
      .ok false s
    | some locs2 => .ok true (locLoop f locs1 locs2 s)

/-- Tail of `check_metadata` (lines 215–268): on a failed parents check,
set the source flag to `2` (lines 217–227); otherwise read the target
metadata, compute the update and declare or modify the target file (lines
229–268), returning the original `migrate` value. -/
def cm_finish (f : List Char) (migrate : Option Value) (md1 : Md)
    (parents_ok : Bool) (s : St) : Res (Option Value) :=
  if ¬ parents_ok then
    let mdr : Md := [("sbn.migrate", .vint 2)]
    let s :=
      { s with
        db1 := dbSetMeta s.db1 f mdr
        nmodified := s.nmodified + 1
        trace := s.trace ++ [Ev.srcSetMeta f mdr] }
    .ok (some (.vint 2)) s
  else
    let s := s.ev (.tgtGetMeta f)
    let md2 := (alGet s.db2.meta f).getD []
    let md_update := mdUpdate md1 md2
    if md_update ≠ [] then
      if md2 ≠ [] then
        .ok migrate
          { s with
            db2 := dbSetMeta s.db2 f md_update
            nmodified := s.nmodified + 1
            trace := s.trace ++ [Ev.tgtSetMeta f md_update] }
      else
        .ok migrate
          { s with
            db2 := dbDeclare s.db2 md_update
            ndeclared := s.ndeclared + 1
            trace := s.trace ++ [Ev.tgtDeclare md_update] }
    else .ok migrate s

mutual

/-- Function `check_metadata(samweb1, samweb2, experiment, f, invalid_file)` of
`migrate_sam_files.py`, lines 140–268.  Returns the original `sbn.migrate`
value (`None`, `0`, `2`, …) as the python function does, except that the
retired-parent branch returns `2`.  The `fuel` argument bounds the
recursion depth of the embedding (python recurses without bound; see the
cycle hazard noted in the repository's design). -/
def check_metadata : Nat → List Char → List Char → List Char → St →
    Res (Option Value)
  | 0, _, _, _, _ => .nofuel
  | fuel + 1, experiment, f, invalid_file, s =>
    let s := s.ev (.srcGetMeta f)
    match alGet s.db1.meta f with
    | none => .exc s
    | some md1 =>
      let migrate := mdGet md1 "sbn.migrate"
      if pyEqInt migrate 0 then .ok migrate s
      else if pyEqInt migrate 2 then .ok migrate s
      else
        let md1 := stripKeys md1
        let md1 := mdSet md1 "sbn.experiment" (.vstr experiment)
        let md1 := mdSet md1 "loc.scratch" (.vint 0)
        match checksumStep md1 with
        | none => .exc s
        | some md1 =>
          let psStep : Res (Md × Bool) :=
            match mdGet md1 "parents" with
            | none => .ok (md1, true) s
            | some (.vlist ps) =>
              match procParents fuel experiment invalid_file ps true s with
              | .ok (ps', ok) s => .ok (mdSet md1 "parents" (.vlist ps'), ok) s
              | .exc s => .exc s
              | .nofuel => .nofuel
            | some (.vstr []) => .ok (md1, true) s
            | some (.vdict []) => .ok (md1, true) s
            | some _ => .exc s
          match psStep with
          | .exc s => .exc s
          | .nofuel => .nofuel
          | .ok (md1, parents_ok) s => cm_finish f migrate md1 parents_ok s

/-- The "Check parents" loop of `check_metadata` (lines 194–213): strip each
parent's `file_id`, clear `parents_ok` on a truthy `retired`, and, while
`parents_ok` holds, recursively `check_file` the parent.  Returns the
(mutated) parent list and the final `parents_ok`.  A non-dict parent entry
raises (python fails on `parent['file_name']` or `del parent['file_id']`). -/
def procParents : Nat → List Char → List Char → List Value → Bool → St →
    Res (List Value × Bool)
  | 0, _, _, _, _, _ => .nofuel
  | _ + 1, _, _, [], ok, s => .ok ([], ok) s
  | fuel + 1, experiment, invalid_file, .vdict d :: rest, ok, s =>
    let d := mdDel d "file_id"
    let ok := ok && ! pyTruthy ((mdGet d "retired").getD (.vbool false))
    if ok then
      match mdGet d "file_name" with
      | some (.vstr pf) =>
        match check_file fuel experiment pf invalid_file s with
        | .ok b s =>
          match procParents fuel experiment invalid_file rest b s with
          | .ok (ds, ok') s => .ok (.vdict d :: ds, ok') s
          | .exc s => .exc s
          | .nofuel => .nofuel
        | .exc s => .exc s
        | .nofuel => .nofuel
      | _ => .exc s
    else
      match procParents fuel experiment invalid_file rest false s with
      | .ok (ds, ok') s => .ok (.vdict d :: ds, ok') s
      | .exc s => .exc s
      | .nofuel => .nofuel
  | _ + 1, _, _, _ :: _, _, s => .exc s

/-- Function `check_file(samweb1, samweb2, experiment, f, invalid_file)` of
`migrate_sam_files.py`, lines 338–360: metadata check, then (unless the flag
was already `0` or `2`) the location check, and on success queue the
`sbn.migrate = 0` source update. -/
def check_file : Nat → List Char → List Char → List Char → St → Res Bool
  | 0, _, _, _, _ => .nofuel
  | fuel + 1, experiment, f, invalid_file, s =>
    match check_metadata fuel experiment f invalid_file s with
    | .exc s => .exc s
    | .nofuel => .nofuel
    | .ok migrate s =>
      if ¬ pyEqInt migrate 0 ∧ ¬ pyEqInt migrate 2 then
        match check_locations f invalid_file s with
        | .exc s => .exc s
        | .nofuel => .nofuel
        | .ok ok s =>
          if ok then
            let s := modifyFileMetadata s f [("sbn.migrate", .vint 0)]
            .ok true { s with nmigrated := s.nmigrated + 1 }
          else .ok false s
      else if pyEqInt migrate 2 then .ok false s
      else .ok true s

end

namespace MigrateLocations

/-- The per-location loop of `check_locations` in `migrate_sam_locations.py`
(lines 99–121): identical to the loop in `migrate_sam_files.py` except that
the scratch skip is conditional on `not doscratch`. -/
def locLoop (doscratch : Bool) (f : List Char) :
    List Loc → List Loc → St → St
  | [], _, s => s
  | l1 :: rest, locs2, s =>
    let s :=
      if ¬ doscratch ∧ pyFind l1.full_path (s2l "/scratch/") > 0 then s
      else if locs2.any (fun l2 => l2.full_path == l1.full_path) then s
      else
        { s with
          db2 := dbAddLoc s.db2 f l1.location
          nlocations := s.nlocations + 1
          trace := s.trace ++ [Ev.tgtAddLoc f l1.location] }
    locLoop doscratch f rest locs2 s

/-- Function `check_locations(samweb1, samweb2, f, doscratch)` of
`migrate_sam_locations.py`, lines 74–128. -/
def check_locations (f : List Char) (doscratch : Bool) (s : St) : Res Bool :=
  let s := s.ev (.srcLocate f)
  match alGet s.db1.locs f with
  | none => .exc s
  | some locs1 =>
    let s := s.ev (.tgtLocate f)
    match alGet s.db2.locs f with
    | none => .ok false s
    | some locs2 => .ok true (locLoop doscratch f locs1 locs2 s)

end MigrateLocations

/-! ### `migrate_sam_definitions.py` -/

/-- Outcome of a python function that can also fail to terminate:
`hang` marks an infinite loop, `exc` an uncaught exception. -/
inductive PyOut (α : Type) where
  | ok : α → PyOut α
  | exc : PyOut α
  | hang : PyOut α
deriving DecidableEq, Repr

/-- The `while start >= 0 and start < len(dim)` loop of
`extract_definitions` (lines 101–118): search `dim[start:]` for
`'defname:'`; on a hit take the first whitespace token of `dim[start+8:]`
(note: offset `start+8`, not the position of the hit) and advance `start`
by 8.  `none` models the `IndexError` of `dim[start+8:].split()[0]` when
that slice has no token.  `gas` bounds the iterations of the embedding:
every iteration advances `start` by 8 and the loop stops once
`start ≥ len(dim)`, so `len(dim) + 1` iterations always suffice and the
gas-exhausted clause is unreachable from `extract_definitions`. -/
def extractGo (dim : List Char) : Nat → Nat → Option (List (List Char))
  | _, 0 => none
  | start, gas + 1 =>
    if start < dim.length then
      match pyFindAux (dim.drop start) (s2l "defname:") 0 with
      | some _ =>
        match firstToken (dim.drop (start + 8)) with
        | none => none
        | some tok =>
          match extractGo dim (start + 8) gas with
          | none => none
          | some rest => some (tok :: rest)
      | none => some []
    else some []

/-- The search loop of `extract_definitions`, started at `start = 0`. -/
def extractLoop (dim : List Char) (start : Nat) :
    Option (List (List Char)) :=
  extractGo dim start (dim.length + 1)

/-- Function `extract_definitions(dim)` of `migrate_sam_definitions.py`, lines
85–122.  The three `dim.replace(...)` calls discard their results (python
strings are immutable), so they have no effect; for the same reason the
`while dim.find(' :') >= 0: dim.replace(' :', ':')` loop never changes
`dim`, so it never exits when `dim` contains `' :'` — modelled by `hang`. -/
def extract_definitions (dim : List Char) : PyOut (List (List Char)) :=
  if containsSub dim (s2l " :") then .hang
  else
    match extractLoop dim 0 with
    | some l => .ok l
    | none => .exc

/-- A dataset definition as returned by `descDefinitionDict` (`defname` and
`dimensions` are always present; the other fields are read under `in`
guards). -/
structure DefRec where
  defname : List Char
  dimensions : List Char
  username : Option (List Char)
  group : Option (List Char)
  description : Option (List Char)
deriving DecidableEq, Repr

/-- State of a `migrate_sam_definitions.py` run: the two definition
databases and the statistics counters touched by `check_definition`. -/
structure DefSt where
  src : List (List Char × DefRec)
  tgt : List (List Char × DefRec)
  nadded : Nat
  nskipped : Nat
  ntarget : Nat
deriving DecidableEq, Repr

/-- Result of `check_definition`: normal return, propagating exception,
infinite loop (from `extract_definitions`), or embedding fuel
exhaustion. -/
inductive DRes (α : Type) where
  | ok : α → DefSt → DRes α
  | exc : DefSt → DRes α
  | hang : DRes α
  | nofuel : DRes α
deriving DecidableEq, Repr

/-- The tuple `ids` of non-migratable dimension tokens (lines 181–195),
kept verbatim, duplicate entry included. -/
def idsList : List String :=
  ["consumer_process_id", "consumed_status", "dataset_def_id", "file_id",
   "project_id", "project_name", "dataset_def_name", "dataset_def_id",
   "dataset_def_name_newest_snapshot", "def_snapshot", "snapshot_id",
   "snapshot_file_number", "snapshot_for_project_id",
   "snapshot_for_project_name", "snapshot_version"]

mutual

/-- Function `check_definition(samweb1, samweb2, defn)` of
`migrate_sam_definitions.py`, lines 128–224.  `fuel` bounds the recursion
depth of the embedding (python recurses without bound). -/
def check_definition : Nat → List Char → DefSt → DRes Bool
  | 0, _, _ => .nofuel
  | fuel + 1, defn, st =>
    match alGet st.src defn with
    | none => .ok false st
    | some defdict =>
      match alGet st.tgt defn with
      | some _ => .ok true st
      | none =>
        let dim := defdict.dimensions
        if idsList.any (fun i => containsSub dim (s2l i)) then
          .ok false { st with nskipped := st.nskipped + 1 }
        else
          match extract_definitions dim with
          | .hang => .hang
          | .exc => .exc st
          | .ok subdefs =>
            match checkSubdefs fuel subdefs st with
            | .ok true st =>
              .ok true
                { st with
                  tgt := st.tgt ++ [(defdict.defname, defdict)]
                  nadded := st.nadded + 1
                  ntarget := st.ntarget + 1 }
            | .ok false st => .ok false st
            | .exc st => .exc st
            | .hang => .hang
            | .nofuel => .nofuel

/-- The "Check embedded definitions" loop of `check_definition` (lines
206–211): recursively migrate each sub-definition, stopping at the first
failure. -/
def checkSubdefs : Nat → List (List Char) → DefSt → DRes Bool
  | 0, _, _ => .nofuel
  | _ + 1, [], st => .ok true st
  | fuel + 1, d :: rest, st =>
    match check_definition fuel d st with
    | .ok true st => checkSubdefs fuel rest st
    | .ok false st => .ok false st
    | .exc st => .exc st
    | .hang => .hang
    | .nofuel => .nofuel

end

/-! ### `migrate_sam_users.py` -/

/-- A user account as returned by `describeUser`. -/
structure UserRec where
  first_name : List Char
  last_name : List Char
  email : List Char
  groups : List (List Char)
  grid_subjects : List (List Char)
deriving DecidableEq, Repr

/-- A user database (`listUsers` / `describeUser`). -/
abbrev UserDb := List (List Char × UserRec)

/-- Result of the users-migration main loop: normal end or a propagating
exception, each carrying the target database reached. -/
inductive URes where
  | ok : UserDb → URes
  | exc : UserDb → URes
deriving DecidableEq, Repr

/-- The target database reached by a run, normal or exceptional. -/
def URes.db : URes → UserDb
  | .ok d => d
  | .exc d => d

/-- Point update of one account in the target database. -/
def updUser (db : UserDb) (u : List Char) (f : UserRec → UserRec) : UserDb :=
  db.map fun kv => if kv.1 = u then (kv.1, f kv.2) else kv

/-- The "Add missing users" loop of `migrate_sam_users.py` (lines 124–132):
`describeUser` on the source (raising when absent), then `addUser` on the
target.  A newly added account has no groups or grid subjects yet. -/
def addMissing (db1 : UserDb) : List (List Char) → UserDb → URes
  | [], db2 => .ok db2
  | u :: rest, db2 =>
    match alGet db1 u with
    | none => .exc db2
    | some r =>
      addMissing db1 rest
        (db2 ++ [(u, { first_name := r.first_name, last_name := r.last_name,
                       email := r.email, groups := [], grid_subjects := [] })])

/-- The "Check grid subjects" loop (lines 166–173): each source-only
subject is added with its own `modifyUser` call; a failing call (member of
`gridFail`) is caught and skipped. -/
def gridLoop (u : List Char) (gridFail : List (List Char × List Char))
    (grids2 : List (List Char)) : List (List Char) → UserDb → UserDb
  | [], db2 => db2
  | g :: rest, db2 =>
    let db2 :=
      if ¬ grids2.contains g then
        if gridFail.contains (u, g) then db2
        else updUser db2 u fun r =>
          { r with grid_subjects := r.grid_subjects ++ [g] }
      else db2
    gridLoop u gridFail grids2 rest db2

/-- The "Checking groups and grid subjects" loop over all source users
(lines 137–176): fetch both profiles, additively apply the source-only
groups in one `modifyUser(addgroups=...)` call, then the source-only grid
subjects one call each. -/
def checkGroups (db1 : UserDb)
    (gridFail : List (List Char × List Char)) :
    List (List Char) → UserDb → URes
  | [], db2 => .ok db2
  | u :: rest, db2 =>
    match alGet db1 u with
    | none => .exc db2
    | some r1 =>
      match alGet db2 u with
      | none => .exc db2
      | some r2 =>
        let add_groups := r1.groups.filter fun g => ¬ r2.groups.contains g
        let db2 :=
          if add_groups ≠ [] then
            updUser db2 u fun r => { r with groups := r.groups ++ add_groups }
          else db2
        let db2 := gridLoop u gridFail r2.grid_subjects r1.grid_subjects db2
        checkGroups db1 gridFail rest db2

/-- The body of `main` of `migrate_sam_users.py` after argument parsing:
compute the missing users (source minus target), add them, then check
groups and grid subjects for every source user.  `users1` is the source
user list (or the single `--user` argument); `gridFail` is the set of
`(user, subject)` pairs whose `modifyUser` call fails remotely. -/
def migrateUsers (users1 : List (List Char)) (db1 db2 : UserDb)
    (gridFail : List (List Char × List Char)) : URes :=
  let usersd := users1.filter fun u => (alGet db2 u).isNone
  match addMissing db1 usersd db2 with
  | .exc d => .exc d
  | .ok db2 => checkGroups db1 gridFail users1 db2

/-! ### Reference definitions written from the specification's words, for
comparison with the embedded code, and concrete scenario states. -/

/-- Closed form of the checksum rewrite as the specification states it: an
entry of the form `md5:` followed by a value shorter than 32 characters is
left-padded with `'0'` to exactly 32; other entries are unchanged. -/
def fixOneSpec (c : List Char) : List Char :=
  if (s2l "md5:").isPrefixOf c ∧ (c.drop 4).length < 32 then
    s2l "md5:" ++ List.replicate (32 - (c.drop 4).length) '0' ++ c.drop 4
  else c

/-- Inclusion test of the minimal-diff payload as the specification states
it: a source field is included when the target lacks it, or holds a
different value and the field is neither `parents` nor `user`. -/
def inclB (md2 : Md) (kv : String × Value) : Bool :=
  match mdGet md2 kv.1 with
  | none => true
  | some v2 => decide (v2 ≠ kv.2 ∧ kv.1 ≠ "parents" ∧ kv.1 ≠ "user")

/-- The minimal-diff payload as the specification states it: exactly the
source fields passing `inclB`, in source order. -/
def mdFilterDiff (md1 md2 : Md) : Md := md1.filter (inclB md2)

/-- The bulk-update payloads appearing in a trace, in order. -/
def bulkBatches (t : List Ev) : List (List Md) :=
  t.filterMap fun e =>
    match e with
    | .srcBulkSetMeta b => some b
    | _ => none

/-- The record that one `modifyFileMetadata(samweb, f, md)` call appends to
the queue: the update with its `file_name` recorded. -/
def enqueueRecord (p : List Char × Md) : Md :=
  mdSet p.2 "file_name" (.vstr p.1)

/-- A sequence of queueing calls, in order. -/
def enqueueRun : St → List (List Char × Md) → St
  | s, [] => s
  | s, p :: rest => enqueueRun (modifyFileMetadata s p.1 p.2) rest

/-- The scratch-area marker searched for in location paths. -/
def scratchMarker : List Char := s2l "/scratch/"

/-- The source locations for which the non-scratch location loop issues an
add-location call: those whose path does not contain `/scratch/` at a
strictly positive index and whose `full_path` matches no target location. -/
def addedLocs (locs1 locs2 : List Loc) : List Loc :=
  locs1.filter fun l1 =>
    !(decide (pyFind l1.full_path scratchMarker > 0)) &&
      !(locs2.any fun l2 => l2.full_path == l1.full_path)

/-- Helper for `specExtractTokens`: each step consumes at least 8
characters past the found occurrence, so `len(dim) + 1` steps suffice. -/
def specGo (nd : List Char) : Nat → List Char → List (List Char)
  | 0, _ => []
  | gas + 1, dim =>
    match pyFindAux dim nd 0 with
    | none => []
    | some i =>
      (firstToken (dim.drop (i + 8))).toList ++
        specGo nd gas (dim.drop (i + 8))

/-- The sub-definition references as the specification states them: in
order of occurrence, the first whitespace-delimited token immediately
following each occurrence of `defname:` in the dimension string. -/
def specExtractTokens (dim : List Char) : List (List Char) :=
  specGo (s2l "defname:") (dim.length + 1) dim

/-- Target-database growth relation for the user migrator: every account
keeps its entry, and its group and grid-subject collections only grow. -/
def UserExt (a b : UserDb) : Prop :=
  ∀ u rec, alGet a u = some rec →
    ∃ rec', alGet b u = some rec' ∧ rec.groups ⊆ rec'.groups ∧
      rec.grid_subjects ⊆ rec'.grid_subjects

/-- An empty process state over the given databases. -/
def st0 (d1 d2 : Db) : St :=
  { db1 := d1, db2 := d2, queue := [], ndeclared := 0, nmodified := 0,
    nlocations := 0, nmigrated := 0, trace := [] }

/-- Scenario: file `g` whose source flag is already `0`. -/
def cwFlag0 : St := st0
  { meta := [(s2l "g", [("file_name", .vstr (s2l "g")),
                        ("sbn.migrate", .vint 0)])]
    locs := [(s2l "g", [])] }
  { meta := [], locs := [] }

/-- Scenario for C1: child `c` has one parent `p`; `p` is not retired, is
pending (no flag), and its metadata already agrees with the target, but the
target `locateFile(p)` call fails (`p` absent from the target `locs`), so
the parent's `check_file` returns `False` for a reason that is neither a
retired parent nor an invalid parent. -/
def cwParentLocFail : St := st0
  { meta := [(s2l "c",
      [("file_name", .vstr (s2l "c")),
       ("parents", .vlist [.vdict [("file_name", .vstr (s2l "p"))]])]),
     (s2l "p", [("file_name", .vstr (s2l "p"))])]
    locs := [(s2l "c", []), (s2l "p", [])] }
  { meta := [(s2l "p",
      [("file_name", .vstr (s2l "p")),
       ("sbn.experiment", .vstr (s2l "sbnd")),
       ("loc.scratch", .vint 0)])]
    locs := [] }

/-- Scenario (specification scenario 3): file `f2` has parent `p1` marked
retired in the source. -/
def cwRetired : St := st0
  { meta := [(s2l "f2",
      [("file_name", .vstr (s2l "f2")),
       ("parents", .vlist [.vdict [("file_name", .vstr (s2l "p1")),
                                   ("file_id", .vint 17),
                                   ("retired", .vbool true)]])]),
     (s2l "p1", [("file_name", .vstr (s2l "p1"))])]
    locs := [(s2l "f2", [])] }
  { meta := [], locs := [] }

/-- Scenario for C6: file `f` has one source location whose full path
starts with `/scratch/` (marker at index 0) and the target has the file
locatable with no locations. -/
def cwScratch0 : St := st0
  { meta := [], locs := [(s2l "f", [⟨s2l "/scratch/a", s2l "scr1"⟩])] }
  { meta := [], locs := [(s2l "f", [])] }

/-- Scenario (specification scenario 2, claim C8): definition `D1` has
dimension `defname: D2 with limit 10` and `D2` does not exist in the
source. -/
def dstC8 : DefSt :=
  { src := [(s2l "D1",
      { defname := s2l "D1", dimensions := s2l "defname: D2 with limit 10",
        username := none, group := none, description := none })]
    tgt := [], nadded := 0, nskipped := 0, ntarget := 0 }

/-- Scenario for C3: file `h` is pending in the source and its prepared
metadata agrees field-by-field with the target record, so the diff is
empty and no target write may occur. -/
def cwAgree : St := st0
  { meta := [(s2l "h", [("file_name", .vstr (s2l "h"))])]
    locs := [(s2l "h", [])] }
  { meta := [(s2l "h",
      [("file_name", .vstr (s2l "h")),
       ("sbn.experiment", .vstr (s2l "sbnd")),
       ("loc.scratch", .vint 0)])]
    locs := [(s2l "h", [])] }

/-- Scenario for C9: source user `u1` has groups `g1, g2` and subject `s1`;
the target already knows `u1` with groups `g2, g3` and subject `s2`. -/
def udb1C9 : UserDb :=
  [(s2l "u1",
    { first_name := s2l "A", last_name := s2l "B", email := s2l "e",
      groups := [s2l "g1", s2l "g2"], grid_subjects := [s2l "s1"] })]

/-- Target user database for the C9 scenario. -/
def udb2C9 : UserDb :=
  [(s2l "u1",
    { first_name := s2l "A", last_name := s2l "B", email := s2l "e",
      groups := [s2l "g2", s2l "g3"], grid_subjects := [s2l "s2"] })]

/-! ### Supporting lemmas -/

theorem padGo_closed (n : Nat) : ∀ v : List Char, 32 - v.length ≤ n →
    padGo n v =
      (List.replicate (32 - v.length) '0' ++ v, decide (v.length < 32)) := by
  induction n with
  | zero =>
    intro v h
    have h32 : ¬ v.length < 32 := by omega
    have h0 : 32 - v.length = 0 := by omega
    simp [padGo, h0, h32]
  | succ n ih =>
    intro v h
    by_cases hlt : v.length < 32
    · have h1 : 32 - ('0' :: v).length ≤ n := by simp; omega
      have h2 : 32 - v.length = (32 - ('0' :: v).length) + 1 := by simp; omega
      rw [padGo, if_pos hlt, ih ('0' :: v) h1, h2, List.replicate_succ',
        List.append_assoc]
      simp [hlt]
    · have h0 : 32 - v.length = 0 := by omega
      rw [padGo, if_neg hlt]
      simp [h0, hlt]

theorem padLoop_closed (v : List Char) :
    padLoop v =
      (List.replicate (32 - v.length) '0' ++ v, decide (v.length < 32)) :=
  padGo_closed 32 v (by omega)

theorem fixOne_closed (c : List Char) :
    fixOne c =
      (fixOneSpec c,
        (s2l "md5:").isPrefixOf c && decide ((c.drop 4).length < 32)) := by
  unfold fixOne fixOneSpec
  by_cases hp : (s2l "md5:").isPrefixOf c
  · rw [if_pos hp, padLoop_closed]
    by_cases hs : (c.drop 4).length < 32
    · simp only [hp, hs, true_and, if_true, decide_eq_true_eq,
        Prod.mk.injEq, decide_eq_true hs]
      simp
    · have hpre : s2l "md5:" <+: c := by
        exact List.isPrefixOf_iff_prefix.mp hp
      have htake : s2l "md5:" = c.take 4 := by
        have := List.prefix_iff_eq_take.mp hpre
        simpa [s2l] using this
      have hc : s2l "md5:" ++ c.drop 4 = c := by
        rw [htake]; exact List.take_append_drop 4 c
      have h0 : 32 - (c.drop 4).length = 0 := by omega
      simp only [hp, hs, true_and, if_false, decide_eq_true_eq,
        Prod.mk.injEq, h0, List.replicate_zero, List.nil_append,
        decide_eq_false hs, hc, Bool.and_false]
      simp [hc]
  · simp [hp]

theorem fixList_map (cs : List (List Char)) :
    fixList (cs.map .vstr) =
      some (cs.map (fun c => Value.vstr (fixOneSpec c)),
        cs.any fun c =>
          (s2l "md5:").isPrefixOf c && decide ((c.drop 4).length < 32)) := by
  induction cs with
  | nil => simp [fixList]
  | cons c rest ih =>
    simp only [List.map_cons, fixList, ih, fixOne_closed, List.any_cons]

theorem checksumStep_closed (md : Md) (cs : List (List Char))
    (h : mdGet md "checksum" = some (.vlist (cs.map .vstr))) :
    checksumStep md =
      some
        (if cs.any (fun c =>
              (s2l "md5:").isPrefixOf c && decide ((c.drop 4).length < 32))
          then mdSet md "checksum"
            (.vlist (cs.map fun c => Value.vstr (fixOneSpec c)))
          else md) := by
  unfold checksumStep
  rw [h]
  dsimp only
  rw [fixList_map]

/-! ### Claim theorems -/

/-- C5: for every checksum list in a file's prepared metadata, the engine
rewrites each `md5:`-prefixed entry whose value is shorter than 32
characters into `md5:` followed by the value left-padded with `'0'` to
exactly length 32; entries not starting with `md5:` and values already of
length 32 or more are unchanged, and the order of entries is preserved
(the rewritten list is the element-wise image of the original). -/
theorem c5_checksum_padding :
    (∀ cs : List (List Char),
      fixList (cs.map .vstr) =
        some (cs.map (fun c => Value.vstr (fixOneSpec c)),
          cs.any fun c =>
            (s2l "md5:").isPrefixOf c && decide ((c.drop 4).length < 32))) ∧
    (∀ (md : Md) (cs : List (List Char)),
      mdGet md "checksum" = some (.vlist (cs.map .vstr)) →
      checksumStep md =
        some
          (if cs.any (fun c =>
                (s2l "md5:").isPrefixOf c && decide ((c.drop 4).length < 32))
            then mdSet md "checksum"
              (.vlist (cs.map fun c => Value.vstr (fixOneSpec c)))
            else md)) :=
  ⟨fixList_map, checksumStep_closed⟩

/-- C5 witness: the `md5:abc` checksum of specification scenario 1 is
padded to 32 characters; a non-`md5:` entry passes through unchanged. -/
theorem c5_checksum_padding_witness :
    mdGet [("checksum",
        Value.vlist [.vstr (s2l "md5:abc"), .vstr (s2l "adler32:01")])]
        "checksum" =
      some (.vlist ([s2l "md5:abc", s2l "adler32:01"].map .vstr)) ∧
    checksumStep [("checksum",
        Value.vlist [.vstr (s2l "md5:abc"), .vstr (s2l "adler32:01")])] =
      some [("checksum",
        Value.vlist
          [.vstr (s2l "md5:" ++ List.replicate 29 '0' ++ s2l "abc"),
           .vstr (s2l "adler32:01")])] := by
  refine ⟨by decide, ?_⟩
  have h := c5_checksum_padding.2
    [("checksum",
        Value.vlist [.vstr (s2l "md5:abc"), .vstr (s2l "adler32:01")])]
    [s2l "md5:abc", s2l "adler32:01"] (by decide)
  rw [h]
  decide

/-- C10: the sub-definition extraction function does not terminate on every
input: on any dimension string containing a space immediately before a
colon (here `" :"` itself) the `while dim.find(' :') >= 0` loop never exits
because `dim.replace(' :', ':')` discards its result, and on `"defname:"`
the expression `dim[start+8:].split()[0]` raises an `IndexError` instead of
returning a list. -/
theorem c10_extract_nontermination :
    extract_definitions (s2l " :") = .hang ∧
    extract_definitions (s2l "defname:") = .exc := by
  constructor <;> decide

/-- C7: the extracted sub-definition references are not the first
whitespace-delimited token following each occurrence of `defname:`: the
code takes the token at the fixed offset `start+8` from the previous search
position rather than at the found occurrence, so on `"a defname: D2"` it
extracts `"e:"` while the token following the (only) occurrence of
`defname:` is `"D2"`. -/
theorem c7_extract_divergence :
    extract_definitions (s2l "a defname: D2") = .ok [s2l "e:"] ∧
    specExtractTokens (s2l "a defname: D2") = [s2l "D2"] ∧
    s2l "e:" ≠ s2l "D2" := by
  refine ⟨by decide, by decide, by decide⟩

/-- C8 counterexample: in specification scenario 2 (definition `D1` with
dimension `defname: D2 with limit 10`, `D2` absent from the source),
migrating `D1` fails and `D1` is not created, but the state — including
the `nskipped` counter — is completely unchanged, contradicting the
claimed "skipped counter increments by at least 1". -/
theorem c8_counterexample :
    check_definition 5 (s2l "D1") dstC8 = .ok false dstC8 ∧
    dstC8.nskipped = 0 ∧ dstC8.tgt = [] := by
  refine ⟨by decide, by decide, by decide⟩

/-- C8 (amended): when a definition's dimension contains no denylist token
and references exactly one sub-definition that the source catalog does not
have, `check_definition` returns failure, the outer definition is not
created in the target, and the whole state — in particular the skip
counter — is unchanged (the skip counter increments only on a denylist
hit, not on a missing sub-definition). -/
theorem c8_missing_subdef (fuel : Nat) (defn d2 : List Char) (st : DefSt)
    (dict : DefRec)
    (h1 : alGet st.src defn = some dict)
    (h2 : alGet st.tgt defn = none)
    (h3 : idsList.any (fun i => containsSub dict.dimensions (s2l i)) = false)
    (h4 : extract_definitions dict.dimensions = .ok [d2])
    (h5 : alGet st.src d2 = none) :
    check_definition (fuel + 3) defn st = .ok false st := by
  have hstep : check_definition (fuel + 1) d2 st = .ok false st := by
    rw [check_definition, h5]
  rw [show fuel + 3 = (fuel + 2) + 1 from rfl, check_definition, h1, h2]
  simp only [h3, Bool.false_eq_true, if_false, h4]
  rw [show fuel + 2 = (fuel + 1) + 1 from rfl, checkSubdefs, hstep]

/-- C8 witness: the amended statement applied to specification scenario 2. -/
theorem c8_missing_subdef_witness :
    alGet dstC8.src (s2l "D1") =
      some { defname := s2l "D1",
             dimensions := s2l "defname: D2 with limit 10",
             username := none, group := none, description := none } ∧
    check_definition 4 (s2l "D1") dstC8 = .ok false dstC8 :=
  ⟨by decide,
    c8_missing_subdef 1 (s2l "D1") (s2l "D2") dstC8
      { defname := s2l "D1",
        dimensions := s2l "defname: D2 with limit 10",
        username := none, group := none, description := none }
      (by decide) (by decide) (by decide) (by decide) (by decide)⟩

theorem bulkBatches_append (t u : List Ev) :
    bulkBatches (t ++ u) = bulkBatches t ++ bulkBatches u :=
  List.filterMap_append t u _

theorem flush_batches (s : St) :
    (bulkBatches (flushMetadata s).trace).flatten =
      (bulkBatches s.trace).flatten ++ s.queue ∧
    (flushMetadata s).queue = [] := by
  unfold flushMetadata
  by_cases h : s.queue.isEmpty
  · have h0 : s.queue = [] := by simpa using h
    simp [h, h0]
  · simp [h, bulkBatches_append, bulkBatches]

theorem enqueue_batches : ∀ (l : List (List Char × Md)) (s : St),
    (bulkBatches (enqueueRun s l).trace).flatten ++ (enqueueRun s l).queue =
      (bulkBatches s.trace).flatten ++ s.queue ++ l.map enqueueRecord := by
  intro l
  induction l with
  | nil => intro s; simp [enqueueRun]
  | cons p rest ih =>
    intro s
    rw [enqueueRun, ih]
    have hone :
        (bulkBatches (modifyFileMetadata s p.1 p.2).trace).flatten ++
            (modifyFileMetadata s p.1 p.2).queue =
          (bulkBatches s.trace).flatten ++ s.queue ++ [enqueueRecord p] := by
      unfold modifyFileMetadata
      by_cases h : (s.queue ++ [mdSet p.2 "file_name" (.vstr p.1)]).length > 21
      · have h' : 21 < s.queue.length + 1 := by simpa using h
        simp only [List.length_append, List.length_cons, List.length_nil,
          Nat.zero_add, h', if_true]
        have := flush_batches
          { s with queue := s.queue ++ [mdSet p.2 "file_name" (.vstr p.1)] }
        rw [this.2, this.1]
        simp [enqueueRecord]
      · have h' : ¬ 21 < s.queue.length + 1 := by simpa using h
        simp only [List.length_append, List.length_cons, List.length_nil,
          Nat.zero_add, h', if_false]
        simp [enqueueRecord]
    rw [hone]
    simp

/-- C4: the batched update queue appends each record (with its file name
recorded) to the in-memory list and triggers an implicit flush exactly when
the pending count exceeds 21; a flush sends the whole queue in one bulk
call in enqueue order and clears it, and performs no call at all on an
empty queue; consequently, for every sequence of enqueues followed by a
final flush, the concatenation of all flushed batches equals the sequence
of enqueued records in order. -/
theorem c4_queue_batching :
    (∀ (s : St) (f : List Char) (md : Md),
      (modifyFileMetadata s f md).queue =
        (if s.queue.length + 1 > 21 then []
          else s.queue ++ [mdSet md "file_name" (.vstr f)]) ∧
      (modifyFileMetadata s f md).trace =
        (if s.queue.length + 1 > 21 then
          s.trace ++
            [Ev.srcBulkSetMeta (s.queue ++ [mdSet md "file_name" (.vstr f)])]
        else s.trace)) ∧
    (∀ s : St, s.queue = [] → flushMetadata s = s) ∧
    (∀ (s : St) (l : List (List Char × Md)), s.queue = [] →
      (bulkBatches (flushMetadata (enqueueRun s l)).trace).flatten =
        (bulkBatches s.trace).flatten ++ l.map enqueueRecord ∧
      (flushMetadata (enqueueRun s l)).queue = []) := by
  refine ⟨?_, ?_, ?_⟩
  · intro s f md
    unfold modifyFileMetadata flushMetadata
    by_cases h : (s.queue ++ [mdSet md "file_name" (.vstr f)]).length > 21
    · have h' : s.queue.length + 1 > 21 := by simpa using h
      simp [h, h']
    · have h' : ¬ s.queue.length + 1 > 21 := by simpa using h
      simp [h, h']
  · intro s h
    unfold flushMetadata
    simp only [h, List.isEmpty_nil, if_true]
    rw [← h]
  · intro s l h
    have hb := flush_batches (enqueueRun s l)
    have he := enqueue_batches l s
    refine ⟨?_, hb.2⟩
    rw [hb.1, he, h]
    simp

/-- C4 witness: enqueueing two records from an empty queue and flushing
produces exactly one batch holding both records in order; flushing an empty
queue is the identity. -/
theorem c4_queue_batching_witness :
    (st0 { meta := [], locs := [] } { meta := [], locs := [] }).queue = [] ∧
    flushMetadata (st0 { meta := [], locs := [] } { meta := [], locs := [] }) =
      st0 { meta := [], locs := [] } { meta := [], locs := [] } ∧
    (bulkBatches
        (flushMetadata
          (enqueueRun (st0 { meta := [], locs := [] } { meta := [], locs := [] })
            [(s2l "a", [("sbn.migrate", .vint 0)]),
             (s2l "b", [("sbn.migrate", .vint 0)])])).trace).flatten =
      [[("sbn.migrate", Value.vint 0), ("file_name", Value.vstr (s2l "a"))],
       [("sbn.migrate", Value.vint 0), ("file_name", Value.vstr (s2l "b"))]] := by
  refine ⟨by decide, ?_, ?_⟩
  · exact c4_queue_batching.2.1 _ (by decide)
  · have h := (c4_queue_batching.2.2
      (st0 { meta := [], locs := [] } { meta := [], locs := [] })
      [(s2l "a", [("sbn.migrate", .vint 0)]),
       (s2l "b", [("sbn.migrate", .vint 0)])] (by decide)).1
    rw [h]
    decide

theorem locLoop_trace (f : List Char) :
    ∀ (locs1 locs2 : List Loc) (s : St),
      (MigrateLocations.locLoop false f locs1 locs2 s).trace =
        s.trace ++
          (addedLocs locs1 locs2).map fun l => Ev.tgtAddLoc f l.location := by
  intro locs1
  induction locs1 with
  | nil => intro locs2 s; simp [MigrateLocations.locLoop, addedLocs]
  | cons l1 rest ih =>
    intro locs2 s
    rw [MigrateLocations.locLoop]
    by_cases h1 : pyFind l1.full_path (s2l "/scratch/") > 0
    · rw [if_pos ⟨by simp, h1⟩, ih]
      have hadd : addedLocs (l1 :: rest) locs2 = addedLocs rest locs2 := by
        simp [addedLocs, List.filter_cons, scratchMarker, h1]
      rw [hadd]
    · rw [if_neg fun hc => h1 hc.2]
      by_cases h2 : (locs2.any fun l2 => l2.full_path == l1.full_path) = true
      · rw [if_pos h2, ih]
        have hadd : addedLocs (l1 :: rest) locs2 = addedLocs rest locs2 := by
          simp [addedLocs, List.filter_cons, scratchMarker, h1, h2]
        rw [hadd]
      · rw [if_neg h2, ih]
        have hadd : addedLocs (l1 :: rest) locs2 = l1 :: addedLocs rest locs2 := by
          simp [addedLocs, List.filter_cons, scratchMarker, h1, h2]
        rw [hadd]
        simp

/-- C6 counterexample: a source location whose full path contains the
scratch marker at index 0 (`/scratch/a`) is not skipped with
`includeScratch` false: the reconciliation issues an add-location call for
it (the code only skips when `fp1.find('/scratch/') > 0`, i.e. at a
strictly positive index), contradicting "regardless of where in the path
the marker appears". -/
theorem c6_counterexample :
    pyFind (s2l "/scratch/a") scratchMarker = 0 ∧
    (MigrateLocations.check_locations (s2l "f") false cwScratch0).stV.map
        (fun s => s.trace.filter Ev.isWrite) =
      some [Ev.tgtAddLoc (s2l "f") (s2l "scr1")] := by
  refine ⟨by decide, by decide⟩

/-- C6 (amended): with `includeScratch` false, a source location is skipped
iff its full path contains `/scratch/` at a strictly positive index (a path
beginning with the marker at index 0 is processed normally); every
processed location gets an add-location call iff no target location has an
exactly equal full path, and the calls appear in source order. -/
theorem c6_scratch_and_match (f : List Char) :
    (∀ (locs1 locs2 : List Loc) (s : St),
      (MigrateLocations.locLoop false f locs1 locs2 s).trace =
        s.trace ++
          (addedLocs locs1 locs2).map fun l => Ev.tgtAddLoc f l.location) ∧
    (∀ (s : St) (locs1 locs2 : List Loc),
      alGet s.db1.locs f = some locs1 →
      alGet s.db2.locs f = some locs2 →
      MigrateLocations.check_locations f false s =
        .ok true
          (MigrateLocations.locLoop false f locs1 locs2
            ((s.ev (.srcLocate f)).ev (.tgtLocate f)))) := by
  refine ⟨locLoop_trace f, ?_⟩
  intro s locs1 locs2 h1 h2
  unfold MigrateLocations.check_locations
  dsimp only [St.ev]
  rw [h1, h2]

/-- C6 witness: the amended characterization applied to the concrete
`/scratch/a` scenario. -/
theorem c6_scratch_and_match_witness :
    alGet cwScratch0.db1.locs (s2l "f") =
      some [⟨s2l "/scratch/a", s2l "scr1"⟩] ∧
    MigrateLocations.check_locations (s2l "f") false cwScratch0 =
      .ok true
        (MigrateLocations.locLoop false (s2l "f")
          [⟨s2l "/scratch/a", s2l "scr1"⟩] []
          ((cwScratch0.ev (.srcLocate (s2l "f"))).ev
            (.tgtLocate (s2l "f")))) :=
  ⟨by decide,
    (c6_scratch_and_match (s2l "f")).2 cwScratch0
      [⟨s2l "/scratch/a", s2l "scr1"⟩] [] (by decide) (by decide)⟩

theorem cm_flag0 (fuel : Nat) (exp f inv : List Char) (s : St) (md : Md)
    (h1 : alGet s.db1.meta f = some md)
    (h2 : mdGet md "sbn.migrate" = some (.vint 0)) :
    check_metadata (fuel + 1) exp f inv s =
      .ok (some (.vint 0)) (s.ev (.srcGetMeta f)) := by
  rw [check_metadata]
  dsimp only [St.ev]
  rw [h1]
  dsimp only
  rw [h2]
  simp [pyEqInt, St.ev]

theorem cf_flag0 (fuel : Nat) (exp f inv : List Char) (s : St) (md : Md)
    (h1 : alGet s.db1.meta f = some md)
    (h2 : mdGet md "sbn.migrate" = some (.vint 0)) :
    check_file (fuel + 2) exp f inv s = .ok true (s.ev (.srcGetMeta f)) := by
  rw [show fuel + 2 = (fuel + 1) + 1 from rfl, check_file,
    cm_flag0 fuel exp f inv s md h1 h2]
  simp [pyEqInt]

/-- C2: for a file whose source metadata carries migration flag `0`,
`check_metadata` returns immediately after the initial source-metadata read
(the state gains exactly that one read event and nothing else), `check_file`
then succeeds with no further remote reads or writes, and running
`check_file` twice in a row adds only the two read events: the remote
writes of the trace are unchanged. -/
theorem c2_flag0_idempotent (fuel : Nat) (exp f inv : List Char) (s : St)
    (md : Md)
    (h1 : alGet s.db1.meta f = some md)
    (h2 : mdGet md "sbn.migrate" = some (.vint 0)) :
    check_metadata (fuel + 1) exp f inv s =
      .ok (some (.vint 0)) (s.ev (.srcGetMeta f)) ∧
    check_file (fuel + 2) exp f inv s = .ok true (s.ev (.srcGetMeta f)) ∧
    check_file (fuel + 2) exp f inv (s.ev (.srcGetMeta f)) =
      .ok true ((s.ev (.srcGetMeta f)).ev (.srcGetMeta f)) ∧
    ((s.ev (.srcGetMeta f)).ev (.srcGetMeta f)).trace.filter Ev.isWrite =
      s.trace.filter Ev.isWrite := by
  refine ⟨cm_flag0 fuel exp f inv s md h1 h2,
    cf_flag0 fuel exp f inv s md h1 h2,
    cf_flag0 fuel exp f inv (s.ev (.srcGetMeta f)) md h1 h2, ?_⟩
  simp [St.ev, Ev.isWrite]

/-- C2 witness: the flag-0 fast path on the concrete state `cwFlag0`. -/
theorem c2_flag0_idempotent_witness :
    alGet cwFlag0.db1.meta (s2l "g") =
      some [("file_name", Value.vstr (s2l "g")),
            ("sbn.migrate", Value.vint 0)] ∧
    check_file 2 (s2l "sbnd") (s2l "g") [] cwFlag0 =
      .ok true (cwFlag0.ev (.srcGetMeta (s2l "g"))) :=
  ⟨by decide,
    (c2_flag0_idempotent 0 (s2l "sbnd") (s2l "g") [] cwFlag0
      [("file_name", Value.vstr (s2l "g")), ("sbn.migrate", Value.vint 0)]
      (by decide) (by decide)).2.1⟩

theorem procParents_one_retired (fuel : Nat) (exp inv : List Char)
    (d : Md) (s : St)
    (hret : pyTruthy ((mdGet (mdDel d "file_id") "retired").getD
        (.vbool false)) = true) :
    procParents (fuel + 2) exp inv [.vdict d] true s =
      .ok ([.vdict (mdDel d "file_id")], false) s := by
  rw [show fuel + 2 = (fuel + 1) + 1 from rfl, procParents]
  simp only [hret, Bool.not_true, Bool.and_false, if_false, Bool.false_eq_true,
    procParents]

theorem procParents_one (fuel : Nat) (exp inv : List Char) (d : Md)
    (pf : List Char) (s : St)
    (hret : pyTruthy ((mdGet (mdDel d "file_id") "retired").getD
        (.vbool false)) = false)
    (hname : mdGet (mdDel d "file_id") "file_name" = some (.vstr pf)) :
    procParents (fuel + 2) exp inv [.vdict d] true s =
      match check_file (fuel + 1) exp pf inv s with
      | .ok b s2 => .ok ([.vdict (mdDel d "file_id")], b) s2
      | .exc s2 => .exc s2
      | .nofuel => .nofuel := by
  rw [show fuel + 2 = (fuel + 1) + 1 from rfl, procParents]
  simp only [hret, Bool.not_false, Bool.and_true, if_true, hname]
  cases check_file (fuel + 1) exp pf inv s <;> simp [procParents]

theorem cm_to_parents (fuel : Nat) (exp f inv : List Char) (s : St)
    (md md1c : Md) (ps : List Value)
    (h1 : alGet s.db1.meta f = some md)
    (h2 : pyEqInt (mdGet md "sbn.migrate") 0 = false)
    (h3 : pyEqInt (mdGet md "sbn.migrate") 2 = false)
    (h4 : checksumStep (mdSet (mdSet (stripKeys md) "sbn.experiment"
        (.vstr exp)) "loc.scratch" (.vint 0)) = some md1c)
    (h5 : mdGet md1c "parents" = some (.vlist ps)) :
    check_metadata (fuel + 1) exp f inv s =
      match procParents fuel exp inv ps true (s.ev (.srcGetMeta f)) with
      | .ok (ps', ok) s1 =>
        cm_finish f (mdGet md "sbn.migrate")
          (mdSet md1c "parents" (.vlist ps')) ok s1
      | .exc s1 => .exc s1
      | .nofuel => .nofuel := by
  rw [check_metadata]
  dsimp only
  rw [show alGet (s.ev (.srcGetMeta f)).db1.meta f = some md from h1]
  dsimp only
  simp only [h2, h3, Bool.false_eq_true, if_false]
  rw [h4]
  dsimp only
  rw [h5]
  dsimp only
  cases procParents fuel exp inv ps true (s.ev (.srcGetMeta f)) with
  | ok v s1 =>
    obtain ⟨ps', ok⟩ := v
    rfl
  | exc s1 => rfl
  | nofuel => rfl

theorem cm_finish_flag2 (f : List Char) (m : Option Value) (md1 : Md)
    (s : St) :
    cm_finish f m md1 false s =
      .ok (some (.vint 2))
        { s with
          db1 := dbSetMeta s.db1 f [("sbn.migrate", .vint 2)]
          nmodified := s.nmodified + 1
          trace := s.trace ++ [Ev.srcSetMeta f [("sbn.migrate", .vint 2)]] } := by
  simp [cm_finish]

theorem cm_finish_true (f : List Char) (m : Option Value) (md1 : Md)
    (s : St) :
    (cm_finish f m md1 true s).retV = some m ∧
    (cm_finish f m md1 true s).stV.map St.db1 = some s.db1 := by
  unfold cm_finish
  simp only [not_true, if_false]
  dsimp only [St.ev]
  split <;> first
    | (split <;> simp [Res.retV, Res.stV])
    | simp [Res.retV, Res.stV]

/-- C1 counterexample: in `cwParentLocFail` the single parent `p` carries
no `retired` marker and is pending in the source (no flag, so in
particular not invalid), yet migrating the child `c` writes flag `2` into
the source catalog — because the parent's recursive `check_file` returned
failure for a different reason (its locations could not be verified in the
target).  This contradicts the claim that the flag moves to `2` only on a
retired or invalid parent and stays pending on any other parent failure. -/
theorem c1_counterexample :
    mdGet [("file_name", Value.vstr (s2l "p"))] "retired" = none ∧
    (alGet cwParentLocFail.db1.meta (s2l "p")).map
        (fun m => mdGet m "sbn.migrate") = some none ∧
    (check_metadata 10 (s2l "sbnd") (s2l "c") [] cwParentLocFail).retV =
      some (some (.vint 2)) ∧
    (check_metadata 10 (s2l "sbnd") (s2l "c") [] cwParentLocFail).stV.map
        (fun s => s.trace.filter Ev.isWrite) =
      some [Ev.srcSetMeta (s2l "c") [("sbn.migrate", Value.vint 2)]] ∧
    (check_metadata 10 (s2l "sbnd") (s2l "c") [] cwParentLocFail).stV.map
        (fun s => (alGet s.db1.meta (s2l "c")).map
          fun m => mdGet m "sbn.migrate") =
      some (some (some (.vint 2))) := by
  refine ⟨by decide, by decide, by decide, by decide, by decide⟩

/-- C1 (amended): for a pending file with one declared parent, the
migration flag transitions to `2` exactly when the parents check fails —
(a) the parent is marked retired, or (b) the parent's recursive
`check_file` returns failure for any reason (parent invalid, or the
parent's target locations not verifiable, including transient locate
failures); (c) when the parent's migration succeeds the source catalog is
left exactly as the parent's run left it (the file's own flag is not
written) and the original flag value is returned; (d) a parent failure
that raises an exception propagates and writes no flag. -/
theorem c1_flag_transition :
    (∀ (fuel : Nat) (exp f inv : List Char) (s : St) (md d md1c : Md),
      alGet s.db1.meta f = some md →
      pyEqInt (mdGet md "sbn.migrate") 0 = false →
      pyEqInt (mdGet md "sbn.migrate") 2 = false →
      checksumStep (mdSet (mdSet (stripKeys md) "sbn.experiment" (.vstr exp))
          "loc.scratch" (.vint 0)) = some md1c →
      mdGet md1c "parents" = some (.vlist [.vdict d]) →
      pyTruthy ((mdGet (mdDel d "file_id") "retired").getD (.vbool false)) =
        true →
      check_metadata (fuel + 3) exp f inv s =
        .ok (some (.vint 2))
          { s with
            db1 := dbSetMeta s.db1 f [("sbn.migrate", .vint 2)]
            nmodified := s.nmodified + 1
            trace := s.trace ++ [Ev.srcGetMeta f,
              Ev.srcSetMeta f [("sbn.migrate", .vint 2)]] }) ∧
    (∀ (fuel : Nat) (exp f inv pf : List Char) (s s2 : St) (md d md1c : Md),
      alGet s.db1.meta f = some md →
      pyEqInt (mdGet md "sbn.migrate") 0 = false →
      pyEqInt (mdGet md "sbn.migrate") 2 = false →
      checksumStep (mdSet (mdSet (stripKeys md) "sbn.experiment" (.vstr exp))
          "loc.scratch" (.vint 0)) = some md1c →
      mdGet md1c "parents" = some (.vlist [.vdict d]) →
      pyTruthy ((mdGet (mdDel d "file_id") "retired").getD (.vbool false)) =
        false →
      mdGet (mdDel d "file_id") "file_name" = some (.vstr pf) →
      check_file (fuel + 1) exp pf inv (s.ev (.srcGetMeta f)) = .ok false s2 →
      check_metadata (fuel + 3) exp f inv s =
        .ok (some (.vint 2))
          { s2 with
            db1 := dbSetMeta s2.db1 f [("sbn.migrate", .vint 2)]
            nmodified := s2.nmodified + 1
            trace := s2.trace ++
              [Ev.srcSetMeta f [("sbn.migrate", .vint 2)]] }) ∧
    (∀ (fuel : Nat) (exp f inv pf : List Char) (s s2 : St) (md d md1c : Md),
      alGet s.db1.meta f = some md →
      pyEqInt (mdGet md "sbn.migrate") 0 = false →
      pyEqInt (mdGet md "sbn.migrate") 2 = false →
      checksumStep (mdSet (mdSet (stripKeys md) "sbn.experiment" (.vstr exp))
          "loc.scratch" (.vint 0)) = some md1c →
      mdGet md1c "parents" = some (.vlist [.vdict d]) →
      pyTruthy ((mdGet (mdDel d "file_id") "retired").getD (.vbool false)) =
        false →
      mdGet (mdDel d "file_id") "file_name" = some (.vstr pf) →
      check_file (fuel + 1) exp pf inv (s.ev (.srcGetMeta f)) = .ok true s2 →
      (check_metadata (fuel + 3) exp f inv s).retV =
        some (mdGet md "sbn.migrate") ∧
      (check_metadata (fuel + 3) exp f inv s).stV.map St.db1 =
        some s2.db1) ∧
    (∀ (fuel : Nat) (exp f inv pf : List Char) (s s2 : St) (md d md1c : Md),
      alGet s.db1.meta f = some md →
      pyEqInt (mdGet md "sbn.migrate") 0 = false →
      pyEqInt (mdGet md "sbn.migrate") 2 = false →
      checksumStep (mdSet (mdSet (stripKeys md) "sbn.experiment" (.vstr exp))
          "loc.scratch" (.vint 0)) = some md1c →
      mdGet md1c "parents" = some (.vlist [.vdict d]) →
      pyTruthy ((mdGet (mdDel d "file_id") "retired").getD (.vbool false)) =
        false →
      mdGet (mdDel d "file_id") "file_name" = some (.vstr pf) →
      check_file (fuel + 1) exp pf inv (s.ev (.srcGetMeta f)) = .exc s2 →
      check_metadata (fuel + 3) exp f inv s = .exc s2) := by
  refine ⟨?_, ?_, ?_, ?_⟩
  · intro fuel exp f inv s md d md1c h1 h2 h3 h4 h5 hret
    rw [show fuel + 3 = (fuel + 2) + 1 from rfl,
      cm_to_parents (fuel + 2) exp f inv s md md1c [.vdict d] h1 h2 h3 h4 h5,
      procParents_one_retired fuel exp inv d _ hret]
    dsimp only
    rw [cm_finish_flag2]
    simp [St.ev]
  · intro fuel exp f inv pf s s2 md d md1c h1 h2 h3 h4 h5 hret hname hcf
    rw [show fuel + 3 = (fuel + 2) + 1 from rfl,
      cm_to_parents (fuel + 2) exp f inv s md md1c [.vdict d] h1 h2 h3 h4 h5,
      procParents_one fuel exp inv d pf _ hret hname, hcf]
    dsimp only
    rw [cm_finish_flag2]
  · intro fuel exp f inv pf s s2 md d md1c h1 h2 h3 h4 h5 hret hname hcf
    rw [show fuel + 3 = (fuel + 2) + 1 from rfl,
      cm_to_parents (fuel + 2) exp f inv s md md1c [.vdict d] h1 h2 h3 h4 h5,
      procParents_one fuel exp inv d pf _ hret hname, hcf]
    dsimp only
    exact cm_finish_true f (mdGet md "sbn.migrate") _ s2
  · intro fuel exp f inv pf s s2 md d md1c h1 h2 h3 h4 h5 hret hname hcf
    rw [show fuel + 3 = (fuel + 2) + 1 from rfl,
      cm_to_parents (fuel + 2) exp f inv s md md1c [.vdict d] h1 h2 h3 h4 h5,
      procParents_one fuel exp inv d pf _ hret hname, hcf]

/-- C1 witness: the retired-parent transition (specification scenario 3)
applied to the concrete state `cwRetired`. -/
theorem c1_flag_transition_witness :
    alGet cwRetired.db1.meta (s2l "f2") =
      some [("file_name", Value.vstr (s2l "f2")),
            ("parents", Value.vlist
              [.vdict [("file_name", Value.vstr (s2l "p1")),
                       ("file_id", Value.vint 17),
                       ("retired", Value.vbool true)]])] ∧
    check_metadata 3 (s2l "sbnd") (s2l "f2") [] cwRetired =
      .ok (some (.vint 2))
        { cwRetired with
          db1 := dbSetMeta cwRetired.db1 (s2l "f2")
            [("sbn.migrate", .vint 2)]
          nmodified := cwRetired.nmodified + 1
          trace := cwRetired.trace ++ [Ev.srcGetMeta (s2l "f2"),
            Ev.srcSetMeta (s2l "f2") [("sbn.migrate", .vint 2)]] } :=
  ⟨by decide,
    c1_flag_transition.1 0 (s2l "sbnd") (s2l "f2") [] cwRetired
      [("file_name", Value.vstr (s2l "f2")),
       ("parents", Value.vlist
         [.vdict [("file_name", Value.vstr (s2l "p1")),
                  ("file_id", Value.vint 17),
                  ("retired", Value.vbool true)]])]
      [("file_name", Value.vstr (s2l "p1")),
       ("file_id", Value.vint 17), ("retired", Value.vbool true)]
      [("file_name", Value.vstr (s2l "f2")),
       ("parents", Value.vlist
         [.vdict [("file_name", Value.vstr (s2l "p1")),
                  ("file_id", Value.vint 17),
                  ("retired", Value.vbool true)]]),
       ("sbn.experiment", Value.vstr (s2l "sbnd")),
       ("loc.scratch", Value.vint 0)]
      (by decide) (by decide) (by decide) (by decide) (by decide)
      (by decide)⟩

theorem mdGet_append (a b : Md) (k : String) :
    mdGet (a ++ b) k =
      match mdGet a k with
      | some v => some v
      | none => mdGet b k := by
  induction a with
  | nil => simp [mdGet]
  | cons kv rest ih =>
    obtain ⟨k', v'⟩ := kv
    by_cases h : k' = k <;> simp [mdGet, h, ih]

theorem mdSet_eq_append (upd : Md) (k : String) (v : Value)
    (h : mdGet upd k = none) : mdSet upd k v = upd ++ [(k, v)] := by
  induction upd with
  | nil => simp [mdSet]
  | cons kv rest ih =>
    obtain ⟨k', v'⟩ := kv
    by_cases hk : k' = k
    · simp [mdGet, hk] at h
    · simp [mdGet, hk] at h
      simp [mdSet, hk, ih h]

theorem mdUpdate_go (md2 : Md) : ∀ (md1 upd : Md),
    (∀ kv ∈ md1, mdGet upd kv.1 = none) →
    ((md1.map Prod.fst).Nodup) →
    List.foldl (mdUpdStep md2) upd md1 = upd ++ mdFilterDiff md1 md2 := by
  intro md1
  induction md1 with
  | nil => intro upd _ _; simp [mdFilterDiff]
  | cons kv rest ih =>
    intro upd hfresh hnd
    have hk : mdGet upd kv.1 = none := hfresh kv (List.mem_cons_self kv rest)
    rw [List.map_cons] at hnd
    have hcons := List.nodup_cons.mp hnd
    have hnotin : kv.1 ∉ rest.map Prod.fst := hcons.1
    have hnd' : (rest.map Prod.fst).Nodup := hcons.2
    have hfresh' : ∀ kv' ∈ rest, mdGet (upd ++ [(kv.1, kv.2)]) kv'.1 = none := by
      intro kv' hkv'
      rw [mdGet_append, hfresh kv' (List.mem_cons_of_mem kv hkv')]
      have hne : kv.1 ≠ kv'.1 := by
        intro he
        exact hnotin (he ▸ List.mem_map_of_mem Prod.fst hkv')
      simp [mdGet, hne]
    rw [List.foldl_cons]
    unfold mdFilterDiff at *
    rw [List.filter_cons]
    cases hm : mdGet md2 kv.1 with
    | none =>
      have hstep : mdUpdStep md2 upd kv = upd ++ [(kv.1, kv.2)] := by
        simp [mdUpdStep, hm, mdSet_eq_append upd kv.1 kv.2 hk]
      have hincl : inclB md2 kv = true := by unfold inclB; rw [hm]
      rw [hstep, ih (upd ++ [(kv.1, kv.2)]) hfresh' hnd', hincl]
      simp
    | some v2 =>
      by_cases hc : v2 ≠ kv.2 ∧ kv.1 ≠ "parents" ∧ kv.1 ≠ "user"
      · have hstep : mdUpdStep md2 upd kv = upd ++ [(kv.1, kv.2)] := by
          unfold mdUpdStep
          rw [hm]
          show (if v2 ≠ kv.2 ∧ kv.1 ≠ "parents" ∧ kv.1 ≠ "user" then
            mdSet upd kv.1 kv.2 else upd) = upd ++ [(kv.1, kv.2)]
          rw [if_pos hc, mdSet_eq_append upd kv.1 kv.2 hk]
        have hincl : inclB md2 kv = true := by
          unfold inclB; rw [hm]; exact decide_eq_true hc
        rw [hstep, ih (upd ++ [(kv.1, kv.2)]) hfresh' hnd', hincl]
        simp
      · have hstep : mdUpdStep md2 upd kv = upd := by
          unfold mdUpdStep
          rw [hm]
          show (if v2 ≠ kv.2 ∧ kv.1 ≠ "parents" ∧ kv.1 ≠ "user" then
            mdSet upd kv.1 kv.2 else upd) = upd
          rw [if_neg hc]
        have hincl : inclB md2 kv = false := by
          unfold inclB; rw [hm]; exact decide_eq_false hc
        rw [hstep, ih upd (fun kv' h' => hfresh kv' (List.mem_cons_of_mem kv h')) hnd',
          hincl]
        simp

theorem mdUpdate_eq_filter (md1 md2 : Md)
    (hnd : (md1.map Prod.fst).Nodup) :
    mdUpdate md1 md2 = mdFilterDiff md1 md2 := by
  have := mdUpdate_go md2 md1 [] (by intro kv _; rfl) hnd
  simpa [mdUpdate] using this

theorem mdUpdate_agree (md1 md2 : Md)
    (hnd : (md1.map Prod.fst).Nodup)
    (hag : ∀ kv ∈ md1, mdGet md2 kv.1 = some kv.2) :
    mdUpdate md1 md2 = [] := by
  rw [mdUpdate_eq_filter md1 md2 hnd]
  unfold mdFilterDiff
  rw [List.filter_eq_nil_iff]
  intro kv hkv
  unfold inclB
  rw [hag kv hkv]
  simp

theorem cm_no_write (fuel : Nat) (exp f inv : List Char) (s : St)
    (md md1c md2 : Md)
    (h1 : alGet s.db1.meta f = some md)
    (h2 : pyEqInt (mdGet md "sbn.migrate") 0 = false)
    (h3 : pyEqInt (mdGet md "sbn.migrate") 2 = false)
    (h4 : checksumStep (mdSet (mdSet (stripKeys md) "sbn.experiment"
        (.vstr exp)) "loc.scratch" (.vint 0)) = some md1c)
    (h5 : mdGet md1c "parents" = none)
    (h6 : alGet s.db2.meta f = some md2)
    (hnd : (md1c.map Prod.fst).Nodup)
    (hag : ∀ kv ∈ md1c, mdGet md2 kv.1 = some kv.2) :
    check_metadata (fuel + 1) exp f inv s =
      .ok (mdGet md "sbn.migrate")
        ((s.ev (.srcGetMeta f)).ev (.tgtGetMeta f)) := by
  rw [check_metadata]
  dsimp only
  rw [show alGet (s.ev (.srcGetMeta f)).db1.meta f = some md from h1]
  dsimp only
  simp only [h2, h3, Bool.false_eq_true, if_false]
  rw [h4]
  dsimp only
  rw [h5]
  dsimp only
  unfold cm_finish
  simp only [not_true, if_false]
  rw [show alGet ((s.ev (.srcGetMeta f)).ev (.tgtGetMeta f)).db2.meta f =
      some md2 from h6]
  simp only [Option.getD_some]
  rw [mdUpdate_agree md1c md2 hnd hag]
  simp

/-- C3: for a file already present in the target, the update payload is
exactly the prepared-source fields that the target lacks or holds with a
different value, excluding `parents` and `user` once set in the target
(`mdFilterDiff` is that characterization, written from the specification);
in particular full agreement yields an empty payload — and then
`check_metadata` performs no write at all to the target (the run adds only
the two metadata reads) — and exactly one differing field yields a
one-field payload. -/
theorem c3_minimal_diff :
    (∀ md1 md2 : Md, (md1.map Prod.fst).Nodup →
      mdUpdate md1 md2 = mdFilterDiff md1 md2) ∧
    (∀ md1 md2 : Md, (md1.map Prod.fst).Nodup →
      (∀ kv ∈ md1, mdGet md2 kv.1 = some kv.2) →
      mdUpdate md1 md2 = []) ∧
    (∀ (l1 l2 : Md) (kv0 : String × Value) (md2 : Md) (w : Value),
      (((l1 ++ kv0 :: l2).map Prod.fst).Nodup) →
      (∀ kv ∈ l1, mdGet md2 kv.1 = some kv.2) →
      (∀ kv ∈ l2, mdGet md2 kv.1 = some kv.2) →
      mdGet md2 kv0.1 = some w → w ≠ kv0.2 →
      kv0.1 ≠ "parents" → kv0.1 ≠ "user" →
      mdUpdate (l1 ++ kv0 :: l2) md2 = [kv0]) ∧
    (∀ (fuel : Nat) (exp f inv : List Char) (s : St) (md md1c md2 : Md),
      alGet s.db1.meta f = some md →
      pyEqInt (mdGet md "sbn.migrate") 0 = false →
      pyEqInt (mdGet md "sbn.migrate") 2 = false →
      checksumStep (mdSet (mdSet (stripKeys md) "sbn.experiment" (.vstr exp))
          "loc.scratch" (.vint 0)) = some md1c →
      mdGet md1c "parents" = none →
      alGet s.db2.meta f = some md2 →
      ((md1c.map Prod.fst).Nodup) →
      (∀ kv ∈ md1c, mdGet md2 kv.1 = some kv.2) →
      check_metadata (fuel + 1) exp f inv s =
        .ok (mdGet md "sbn.migrate")
          ((s.ev (.srcGetMeta f)).ev (.tgtGetMeta f))) := by
  refine ⟨mdUpdate_eq_filter, mdUpdate_agree, ?_, cm_no_write⟩
  intro l1 l2 kv0 md2 w hnd hag1 hag2 hw hne hp hu
  rw [mdUpdate_eq_filter _ md2 hnd]
  unfold mdFilterDiff
  rw [List.filter_append, List.filter_cons]
  have hincl0 : inclB md2 kv0 = true := by
    unfold inclB
    rw [hw]
    exact decide_eq_true ⟨hne, hp, hu⟩
  have hf1 : l1.filter (inclB md2) = [] := by
    rw [List.filter_eq_nil_iff]
    intro kv hkv
    unfold inclB
    rw [hag1 kv hkv]
    simp
  have hf2 : l2.filter (inclB md2) = [] := by
    rw [List.filter_eq_nil_iff]
    intro kv hkv
    unfold inclB
    rw [hag2 kv hkv]
    simp
  rw [hincl0, hf1, hf2]
  simp

/-- C3 witness: the full-agreement (empty diff, zero target writes) case on
the concrete state `cwAgree`, and the one-field-diff case on a concrete
pair of dictionaries. -/
theorem c3_minimal_diff_witness :
    check_metadata 1 (s2l "sbnd") (s2l "h") [] cwAgree =
      .ok none
        ((cwAgree.ev (.srcGetMeta (s2l "h"))).ev (.tgtGetMeta (s2l "h"))) ∧
    mdUpdate
        [("file_name", Value.vstr (s2l "h")), ("sz", Value.vint 5)]
        [("file_name", Value.vstr (s2l "h")), ("sz", Value.vint 7)] =
      [("sz", Value.vint 5)] :=
  ⟨c3_minimal_diff.2.2.2 0 (s2l "sbnd") (s2l "h") [] cwAgree
      [("file_name", Value.vstr (s2l "h"))]
      [("file_name", Value.vstr (s2l "h")),
       ("sbn.experiment", Value.vstr (s2l "sbnd")),
       ("loc.scratch", Value.vint 0)]
      [("file_name", Value.vstr (s2l "h")),
       ("sbn.experiment", Value.vstr (s2l "sbnd")),
       ("loc.scratch", Value.vint 0)]
      (by decide) (by decide) (by decide) (by decide) (by decide)
      (by decide) (by decide) (by decide),
    c3_minimal_diff.2.2.1 [("file_name", Value.vstr (s2l "h"))] []
      ("sz", Value.vint 5)
      [("file_name", Value.vstr (s2l "h")), ("sz", Value.vint 7)]
      (Value.vint 7)
      (by decide) (by decide) (by decide) (by decide) (by decide)
      (by decide) (by decide)⟩

theorem alGet_append_some {β : Type} (db l : List (List Char × β))
    (u : List Char) (r : β) (h : alGet db u = some r) :
    alGet (db ++ l) u = some r := by
  induction db with
  | nil => simp [alGet] at h
  | cons kv rest ih =>
    obtain ⟨k, v⟩ := kv
    by_cases hk : k = u <;> simp [alGet, hk] at h ⊢
    · exact h
    · exact ih h

theorem userExt_refl (a : UserDb) : UserExt a a := by
  intro u rec h
  exact ⟨rec, h, List.Subset.refl _, List.Subset.refl _⟩

theorem userExt_trans {a b c : UserDb} (h1 : UserExt a b)
    (h2 : UserExt b c) : UserExt a c := by
  intro u rec h
  obtain ⟨r1, hb, hg1, hs1⟩ := h1 u rec h
  obtain ⟨r2, hc, hg2, hs2⟩ := h2 u r1 hb
  exact ⟨r2, hc, hg1.trans hg2, hs1.trans hs2⟩

theorem userExt_append (a l : UserDb) : UserExt a (a ++ l) := by
  intro u rec h
  exact ⟨rec, alGet_append_some a l u rec h, List.Subset.refl _,
    List.Subset.refl _⟩

theorem userExt_upd (db : UserDb) (u0 : List Char) (g : UserRec → UserRec)
    (hg : ∀ r, r.groups ⊆ (g r).groups ∧
      r.grid_subjects ⊆ (g r).grid_subjects) :
    UserExt db (updUser db u0 g) := by
  intro u rec h
  induction db with
  | nil => simp [alGet] at h
  | cons kv rest ih =>
    obtain ⟨k, v⟩ := kv
    have hd : (if (k, v).1 = u0 then ((k, v).1, g (k, v).2) else (k, v)) =
        (k, if k = u0 then g v else v) := by
      by_cases hu : k = u0 <;> simp [hu]
    unfold updUser
    rw [List.map_cons, hd, alGet]
    rw [alGet] at h
    by_cases hk : k = u
    · rw [if_pos hk] at h ⊢
      have hv : v = rec := Option.some.inj h
      subst hv
      refine ⟨if k = u0 then g v else v, rfl, ?_, ?_⟩ <;>
        by_cases hu : k = u0 <;> simp [hu]
      · exact (hg v).1
      · exact (hg v).2
    · rw [if_neg hk] at h ⊢
      exact ih h

theorem addMissing_ext (db1 : UserDb) : ∀ (l : List (List Char))
    (db2 : UserDb), UserExt db2 (addMissing db1 l db2).db := by
  intro l
  induction l with
  | nil => intro db2; exact userExt_refl db2
  | cons u rest ih =>
    intro db2
    rw [addMissing]
    cases alGet db1 u with
    | none => exact userExt_refl db2
    | some r =>
      exact userExt_trans (userExt_append db2 _) (ih _)

theorem gridLoop_ext (u : List Char)
    (gridFail : List (List Char × List Char))
    (grids2 : List (List Char)) : ∀ (gs : List (List Char)) (db2 : UserDb),
    UserExt db2 (gridLoop u gridFail grids2 gs db2) := by
  intro gs
  induction gs with
  | nil => intro db2; exact userExt_refl db2
  | cons g rest ih =>
    intro db2
    rw [gridLoop]
    refine userExt_trans ?_ (ih _)
    by_cases h1 : ¬ grids2.contains g = true
    · rw [if_pos h1]
      by_cases h2 : gridFail.contains (u, g) = true
      · rw [if_pos h2]
        exact userExt_refl db2
      · rw [if_neg h2]
        exact userExt_upd db2 u
          (fun r => { r with grid_subjects := r.grid_subjects ++ [g] })
          fun r => ⟨List.Subset.refl _, List.subset_append_left _ _⟩
    · rw [if_neg h1]
      exact userExt_refl db2

theorem checkGroups_ext (db1 : UserDb)
    (gridFail : List (List Char × List Char)) :
    ∀ (us : List (List Char)) (db2 : UserDb),
    UserExt db2 (checkGroups db1 gridFail us db2).db := by
  intro us
  induction us with
  | nil => intro db2; exact userExt_refl db2
  | cons u rest ih =>
    intro db2
    rw [checkGroups]
    cases alGet db1 u with
    | none => exact userExt_refl db2
    | some r1 =>
      cases alGet db2 u with
      | none => exact userExt_refl db2
      | some r2 =>
        refine userExt_trans ?_ (userExt_trans (gridLoop_ext u gridFail
          r2.grid_subjects r1.grid_subjects _) (ih _))
        by_cases h : (r1.groups.filter fun g => ¬ r2.groups.contains g) ≠ []
        · rw [if_pos h]
          exact userExt_upd db2 u
            (fun r => { r with groups :=
              r.groups ++ r1.groups.filter fun g => ¬ r2.groups.contains g })
            fun r => ⟨List.subset_append_left _ _, List.Subset.refl _⟩
        · rw [if_neg h]
          exact userExt_refl db2

/-- C9: the user/group migrator is strictly additive: for every account
present in the target before the run, the account is still present after
the run (whether the run ends normally or by a propagating exception) and
its group set and grid-subject set are supersets of their pre-run values —
the migrator only applies source-minus-target differences and never
removes a group or grid subject. -/
theorem c9_users_additive (users1 : List (List Char)) (db1 db2 : UserDb)
    (gridFail : List (List Char × List Char)) (u : List Char)
    (rec : UserRec) (h : alGet db2 u = some rec) :
    ∃ rec', alGet (migrateUsers users1 db1 db2 gridFail).db u = some rec' ∧
      rec.groups ⊆ rec'.groups ∧
      rec.grid_subjects ⊆ rec'.grid_subjects := by
  have hext : UserExt db2 (migrateUsers users1 db1 db2 gridFail).db := by
    unfold migrateUsers
    dsimp only
    cases ham : addMissing db1
        (List.filter (fun v => (alGet db2 v).isNone) users1) db2 with
    | exc d =>
      have h1 := addMissing_ext db1
        (List.filter (fun v => (alGet db2 v).isNone) users1) db2
      rw [ham] at h1
      exact h1
    | ok db2' =>
      have h1 := addMissing_ext db1
        (List.filter (fun v => (alGet db2 v).isNone) users1) db2
      rw [ham] at h1
      exact userExt_trans h1 (checkGroups_ext db1 gridFail users1 db2')
  exact hext u rec h

/-- C9 witness: migrating the concrete user `u1` (source groups `g1, g2`,
subject `s1`; target groups `g2, g3`, subject `s2`) keeps every pre-run
target group and grid subject. -/
theorem c9_users_additive_witness :
    alGet udb2C9 (s2l "u1") =
      some { first_name := s2l "A", last_name := s2l "B", email := s2l "e",
             groups := [s2l "g2", s2l "g3"],
             grid_subjects := [s2l "s2"] } ∧
    ∃ rec', alGet (migrateUsers [s2l "u1"] udb1C9 udb2C9 []).db
        (s2l "u1") = some rec' ∧
      [s2l "g2", s2l "g3"] ⊆ rec'.groups ∧
      [s2l "s2"] ⊆ rec'.grid_subjects :=
  ⟨by decide,
    c9_users_additive [s2l "u1"] udb1C9 udb2C9 [] (s2l "u1")
      { first_name := s2l "A", last_name := s2l "B", email := s2l "e",
        groups := [s2l "g2", s2l "g3"], grid_subjects := [s2l "s2"] }
      (by decide)⟩

end Sbnutil
